import Mathlib

/-!
# The one-file streaming service: transcode orchestrator

A shallow embedding of `main.go`:

* `isValidCodec`, `splitFFmpegParams`, `getEnv` are pure functions and are
  translated one to one (Go `switch` on a string becomes an `if` chain, a Go
  map literal becomes an association list indexed with the zero value as
  default, `append` becomes list concatenation).
* `transcodeVideo` starts two goroutines and reduces their messages.  It is
  embedded as a small-step transition system over an explicit state (program
  counters of the two goroutines and of the caller, plus the contents of the
  two buffered channels); an execution is a schedule, a list of thread
  identifiers.
* `handleVideoUpload` is embedded as a function from the request data and the
  outcomes of its collaborators to a response.
-/

namespace StreamingService

/-! ## Go maps -/

/-- Go map indexing `m[k]` on a map literal: the stored value, or the zero
value of the element type when the key is absent. -/
def goIndex {α : Type} (m : List (String × α)) (k : String) (zero : α) : α :=
  (m.lookup k).getD zero

/-- Go map assignment `m[k] = v`. -/
def goAssign {α : Type} (m : List (String × α)) (k : String) (v : α) : List (String × α) :=
  match m with
  | [] => [(k, v)]
  | (k0, v0) :: rest => if k0 = k then (k, v) :: rest else (k0, v0) :: goAssign rest k v

/-! ## Constants and small helpers of `main.go` -/

/-- The constant `base_url`. -/
def base_url : String := "http://localhost:3000"

/-- The function `getEnv(key, fallback)`; the process environment is the
function `env` (the result of `os.LookupEnv`). -/
def getEnv (env : String → Option String) (key fallback : String) : String :=
  match env key with
  | some value => value
  | none => fallback

/-- The function `isValidCodec`: index the map literal `validCodecs`. -/
def isValidCodec (codec : String) : Bool :=
  let validCodecs : List (String × Bool) := [("av1", true), ("hevc", true), ("avc", true)]
  goIndex validCodecs codec false

/-! ## The parameter matrix -/

/-- The first `switch` of `splitFFmpegParams`: the value of `commonOutput`. -/
def commonOutput (codec : String) : List String :=
  if codec = "av1" then
    ["-c:v", "libaom-av1", "-crf", "30", "-b:v", "0", "-strict", "experimental",
     "-c:a", "aac", "-b:a", "128k"]
  else if codec = "hevc" then
    ["-c:v", "libx265", "-crf", "28", "-preset", "medium", "-c:a", "aac", "-b:a", "128k"]
  else
    ["-c:v", "libx264",
     "-preset", "ultrafast",
     "-tune", "fastdecode",
     "-profile:v", "baseline",
     "-level", "3.0",
     "-b:v", "2M",
     "-maxrate", "2.5M",
     "-bufsize", "5M",
     "-pix_fmt", "yuv420p",
     "-c:a", "aac",
     "-b:a", "128k",
     "-movflags", "+faststart",
     "-g", "48",
     "-keyint_min", "48",
     "-sc_threshold", "0",
     "-bf", "0"]

/-- The function `splitFFmpegParams(hwAccel, codec)`: the pair
(input flags, output flags). -/
def splitFFmpegParams (hwAccel codec : String) : List String × List String :=
  if hwAccel = "nvidia" then
    let codecParams : List (String × List String) :=
      [("av1", ["-c:v", "av1_nvenc"]),
       ("hevc", ["-c:v", "hevc_nvenc"]),
       ("avc", ["-c:v", "h264_nvenc", "-preset", "p4", "-tune", "ll"])]
    (["-hwaccel", "cuda"], goIndex codecParams codec [] ++ commonOutput codec)
  else if hwAccel = "intel" then
    let codecParams : List (String × List String) :=
      [("hevc", ["-c:v", "hevc_qsv"]),
       ("avc", ["-c:v", "h264_qsv", "-preset", "faster"])]
    if codec = "av1" then
      ([], commonOutput codec)
    else
      (["-hwaccel", "qsv"], goIndex codecParams codec [] ++ commonOutput codec)
  else if hwAccel = "amd" then
    let codecParams : List (String × List String) :=
      [("hevc", ["-c:v", "hevc_amf"]),
       ("avc", ["-c:v", "h264_amf", "-quality", "speed"])]
    if codec = "av1" then
      ([], commonOutput codec)
    else
      (["-hwaccel", "amf"], goIndex codecParams codec [] ++ commonOutput codec)
  else
    let codecParams : List (String × List String) :=
      [("hevc", ["-c:v", "hevc_videotoolbox"]),
       ("avc", ["-c:v", "h264_videotoolbox", "-allow_sw", "0", "-realtime", "1",
                "-profile:v", "high", "-tag:v", "avc1", "-threads", "0"])]
    if codec = "avc" then
      (["-hwaccel", "videotoolbox"],
       ["-c:v", "h264_videotoolbox",
        "-b:v", "2M",
        "-maxrate", "2.5M",
        "-bufsize", "5M",
        "-pix_fmt", "nv12",
        "-c:a", "aac",
        "-b:a", "128k"])
    else
      (["-hwaccel", "videotoolbox", "-hwaccel_output_format", "videotoolbox_vld"],
       goIndex codecParams codec [] ++ commonOutput codec)

/-- The option `flag` occurs in `l` immediately followed by the value `value`. -/
def hasPair (l : List String) (flag value : String) : Bool :=
  match l with
  | a :: b :: rest => (a == flag && b == value) || hasPair (b :: rest) flag value
  | _ => false

/-- The values that follow each occurrence of the option `flag` in `l`, in order. -/
def valuesOf (l : List String) (flag : String) : List String :=
  match l with
  | a :: b :: rest => if a = flag then b :: valuesOf (b :: rest) flag else valuesOf (b :: rest) flag
  | _ => []

/-! ## Paths (`path/filepath`, Unix) and formatting

`filepath.Join`, `filepath.Clean` and `filepath.Ext` belong to the Go standard
library, not to this repository.  They are transcribed here from the library
(`path/filepath/path.go`, `path_unix.go`) so that the paths built by
`transcodeVideo` can be computed.  Go strings are byte sequences; the loops
below only test for the ASCII bytes `/` and `.`, which never occur inside a
multi-byte UTF-8 sequence, so they are run over the characters of the string. -/

/-- The inner loop of the `..` case of `filepath.Clean`:
`for out.w > dotdot && !sep(out.index(out.w)) { out.w-- }`.
The buffer is kept reversed; `last` is the byte at index `out.w`. -/
def filepath.backtrack : List Char → Nat → Char → List Char
  | [], _, _ => []
  | c :: rout, dotdot, last =>
    if (c :: rout).length > dotdot ∧ last ≠ '/' then filepath.backtrack rout dotdot c
    else c :: rout

/-- The main loop `for r < n` of `filepath.Clean`.  `path` is the unread part
`path[r:]`, `rout` the output buffer reversed (so `out.w = rout.length`).  Every
iteration reads at least one byte, so `fuel = len(path)` iterations suffice. -/
def filepath.cleanLoop (rooted : Bool) : Nat → List Char → List Char → Nat → List Char
  | 0, _, rout, _ => rout
  | fuel + 1, path, rout, dotdot =>
    match path with
    | [] => rout
    | c :: rest =>
      if c = '/' then
        -- empty path element
        filepath.cleanLoop rooted fuel rest rout dotdot
      else if c = '.' ∧ (rest = [] ∨ rest.head? = some '/') then
        -- . element
        filepath.cleanLoop rooted fuel rest rout dotdot
      else if c = '.' ∧ rest.head? = some '.' ∧
          (rest.tail = [] ∨ rest.tail.head? = some '/') then
        -- .. element: remove to last separator
        if rout.length > dotdot then
          match rout with
          | [] => filepath.cleanLoop rooted fuel rest.tail rout dotdot
          | last :: rout1 =>
            filepath.cleanLoop rooted fuel rest.tail (filepath.backtrack rout1 dotdot last) dotdot
        else if rooted = false then
          let rout1 := if rout.length > 0 then '/' :: rout else rout
          let rout2 := '.' :: '.' :: rout1
          filepath.cleanLoop rooted fuel rest.tail rout2 rout2.length
        else
          filepath.cleanLoop rooted fuel rest.tail rout dotdot
      else
        -- real path element: add slash if needed, copy element
        let rout1 :=
          if (rooted = true ∧ rout.length ≠ 1) ∨ (rooted = false ∧ rout.length ≠ 0) then '/' :: rout
          else rout
        filepath.cleanLoop rooted fuel (path.dropWhile (fun x => x ≠ '/'))
          ((path.takeWhile (fun x => x ≠ '/')).reverse ++ rout1) dotdot

/-- The function `filepath.Clean` (Unix: no volume name, separator `/`). -/
def filepath.Clean (path : String) : String :=
  match path.data with
  | [] => "."
  | c :: rest =>
    let rooted : Bool := c = '/'
    let rout :=
      if rooted then filepath.cleanLoop true rest.length rest ['/'] 1
      else filepath.cleanLoop false (c :: rest).length (c :: rest) [] 0
    if rout = [] then "." else String.mk rout.reverse

/-- The function `strings.Join(elems, sep)`. -/
def strings.Join (elems : List String) (sep : String) : String :=
  match elems with
  | [] => ""
  | [e] => e
  | e :: rest => e ++ sep ++ strings.Join rest sep

/-- The function `filepath.Join(elem...)` (Unix): leading empty elements are
skipped, the remaining ones are joined with `/` and the result is cleaned. -/
def filepath.Join (elem : List String) : String :=
  match elem.dropWhile (fun e => e = "") with
  | [] => ""
  | e :: rest => filepath.Clean (strings.Join (e :: rest) "/")

/-- The loop of `filepath.Ext`, reading the path from its last byte. -/
def filepath.extLoop : List Char → List Char → List Char
  | [], _ => []
  | c :: rpath, acc =>
    if c = '/' then [] else if c = '.' then c :: acc else filepath.extLoop rpath (c :: acc)

/-- The function `filepath.Ext`: the extension of the last element of `path`. -/
def filepath.Ext (path : String) : String :=
  String.mk (filepath.extLoop path.data.reverse [])

/-! ## `transcodeVideo`

The two goroutines and the caller are three threads communicating over the
buffered channels `errChan` and `timesChan` (capacity 2 each).  The encoder is
a black box: the result of each `cmd.Run()` is a parameter of the call.  The two
calls of `os.MkdirAll`, whose results the code ignores, are not modelled. -/

/-- The two encoding jobs (one goroutine each). -/
inductive Job where
  | hls
  | dash
  deriving DecidableEq, Repr

/-- The threads of one call of `transcodeVideo`. -/
inductive Tid where
  | job (j : Job)
  | main
  deriving DecidableEq, Repr

/-- A `float64` value.  The code modelled here only moves such values around
(it performs no arithmetic on them), so the value is carried as a number. -/
abbrev Float64 := Nat

/-- What one `cmd.Run()` does: the text of the error it returns (`none` for a
nil error) and the value of `time.Since(start).Seconds()` read after it. -/
structure RunResult where
  err : Option String
  secs : Float64
  deriving DecidableEq, Repr

/-- The arguments of one call of `transcodeVideo`, the process environment and
the behaviour of the two encoder processes. -/
structure Call where
  inputPath : String
  videoID : String
  storagePath : String
  codec : String
  env : String → Option String
  hlsRun : RunResult
  dashRun : RunResult

/-- The encoder outcome of job `j`. -/
def Call.run (c : Call) : Job → RunResult
  | .hls => c.hlsRun
  | .dash => c.dashRun

/-- The local `hlsPath`. -/
def Call.hlsPath (c : Call) : String := filepath.Join [c.storagePath, "hls", c.videoID]

/-- The local `dashPath`. -/
def Call.dashPath (c : Call) : String := filepath.Join [c.storagePath, "dash", c.videoID]

/-- The local `inputParams`. -/
def Call.inputParams (c : Call) : List String :=
  (splitFFmpegParams (getEnv c.env "HW_ACCEL" "macos") c.codec).1

/-- The local `outputParams`. -/
def Call.outputParams (c : Call) : List String :=
  (splitFFmpegParams (getEnv c.env "HW_ACCEL" "macos") c.codec).2

/-- The argument vector of `hlsCmd` (the arguments after the program name
`ffmpeg`). -/
def Call.hlsArgs (c : Call) : List String :=
  (c.inputParams ++ ["-i", c.inputPath]) ++
    (c.outputParams ++ ["-hls_time", "4", "-hls_playlist_type", "vod",
      "-hls_segment_filename", filepath.Join [c.hlsPath, "segment_%03d.ts"],
      filepath.Join [c.hlsPath, "playlist.m3u8"]])

/-- The argument vector of `dashCmd`. -/
def Call.dashArgs (c : Call) : List String :=
  (c.inputParams ++ ["-i", c.inputPath]) ++
    (c.outputParams ++ ["-f", "dash", "-use_timeline", "1", "-use_template", "1",
      "-seg_duration", "4", "-adaptation_sets", "id=0,streams=v id=1,streams=a",
      filepath.Join [c.dashPath, "manifest.mpd"]])

/-- The argument vector of the command of job `j`. -/
def Call.args (c : Call) : Job → List String
  | .hls => c.hlsArgs
  | .dash => c.dashArgs

/-- The error value a goroutine sends: `fmt.Errorf("HLS transcoding error: %v", err)`,
respectively `"DASH transcoding error: %v"`. -/
def errText : Job → String → String
  | .hls, e => "HLS transcoding error: " ++ e
  | .dash, e => "DASH transcoding error: " ++ e

/-- The key under which a goroutine reports its duration. -/
def timeKey : Job → String
  | .hls => "hlsTranscode"
  | .dash => "dashTranscode"

/-- A value in `errChan`.  `src` is a ghost field (the sending goroutine); the
code never reads it. -/
structure ErrMsg where
  src : Job
  err : Option String
  deriving DecidableEq, Repr

/-- A value in `timesChan`; `src` is a ghost field. -/
structure TimeMsg where
  src : Job
  key : String
  value : Float64
  deriving DecidableEq, Repr

/-- The three results of `transcodeVideo`; `none` is Go `nil`. -/
structure Ret where
  urls : Option (List (String × String))
  timings : Option (List (String × Float64))
  err : Option String
  deriving DecidableEq, Repr

/-- Program counter of a goroutine. -/
inductive WorkerPc where
  /-- before `cmd.Run()` -/
  | start
  /-- before `errChan <- fmt.Errorf(...)`, with the formatted text -/
  | sendErr (text : String)
  /-- before `timesChan <- ...`, with the measured duration -/
  | sendTime (value : Float64)
  /-- before `errChan <- nil` -/
  | sendNil
  /-- returned -/
  | done
  deriving DecidableEq, Repr

/-- Program counter of the caller. -/
inductive MainPc where
  /-- in the first loop, with the value of `i` -/
  | waitErr (i : Nat)
  /-- in the second loop, with the value of `i` -/
  | collect (i : Nat)
  /-- after a `return` -/
  | returned (r : Ret)
  deriving DecidableEq, Repr

/-- The state of one call.  `spawned`, `seenErr` and `seenTimes` are ghost
logs: the commands run so far, and the senders of the values the caller has
received from `errChan` and from `timesChan`. -/
structure State where
  hls : WorkerPc
  dash : WorkerPc
  main : MainPc
  errChan : List ErrMsg
  timesChan : List TimeMsg
  timings : List (String × Float64)
  spawned : List (Job × List String)
  seenErr : List Job
  seenTimes : List Job
  deriving DecidableEq, Repr

/-- Program counter of goroutine `j`. -/
def State.pc (s : State) : Job → WorkerPc
  | .hls => s.hls
  | .dash => s.dash

/-- Move goroutine `j` to `p`. -/
def State.setPc (s : State) (j : Job) (p : WorkerPc) : State :=
  match j with
  | .hls => { s with hls := p }
  | .dash => { s with dash := p }

/-- Capacity of `errChan` and of `timesChan`. -/
def chanCap : Nat := 2

/-- The state after `timings := make(...)`, the two `make(chan ..., 2)` and the
two `go` statements. -/
def State.init : State :=
  { hls := .start, dash := .start, main := .waitErr 0, errChan := [], timesChan := [],
    timings := [], spawned := [], seenErr := [], seenTimes := [] }

/-- The URL map of the final `return`. -/
def urlMap (videoID : String) : List (String × String) :=
  [("hls", base_url ++ "/hls/" ++ videoID ++ "/playlist.m3u8"),
   ("dash", base_url ++ "/dash/" ++ videoID ++ "/manifest.mpd")]

/-- Append to the ghost log of commands run. -/
def State.logSpawn (s : State) (x : Job × List String) : State :=
  { s with spawned := s.spawned ++ [x] }

/-- A send on `errChan` (the channel is a FIFO queue). -/
def State.pushErr (s : State) (m : ErrMsg) : State :=
  { s with errChan := s.errChan ++ [m] }

/-- A send on `timesChan`. -/
def State.pushTime (s : State) (m : TimeMsg) : State :=
  { s with timesChan := s.timesChan ++ [m] }

/-- One step of goroutine `j`.  A send on a full channel blocks (the state is
unchanged). -/
def stepJob (c : Call) (j : Job) (s : State) : State :=
  match s.pc j with
  | .start =>
    match (c.run j).err with
    | some e => (s.logSpawn (j, "ffmpeg" :: c.args j)).setPc j (.sendErr (errText j e))
    | none => (s.logSpawn (j, "ffmpeg" :: c.args j)).setPc j (.sendTime (c.run j).secs)
  | .sendErr text =>
    if s.errChan.length < chanCap then (s.pushErr ⟨j, some text⟩).setPc j .done
    else s
  | .sendTime value =>
    if s.timesChan.length < chanCap then (s.pushTime ⟨j, timeKey j, value⟩).setPc j .sendNil
    else s
  | .sendNil =>
    if s.errChan.length < chanCap then (s.pushErr ⟨j, none⟩).setPc j .done
    else s
  | .done => s

/-- One step of the caller.  A receive on an empty channel blocks. -/
def stepMain (c : Call) (s : State) : State :=
  match s.main with
  | .waitErr i =>
    if i < 2 then
      match s.errChan with
      | [] => s
      | m :: rest =>
        match m.err with
        | some e =>
          { s with errChan := rest, seenErr := s.seenErr ++ [m.src],
                   main := .returned ⟨none, none, some e⟩ }
        | none =>
          { s with errChan := rest, seenErr := s.seenErr ++ [m.src], main := .waitErr (i + 1) }
    else { s with main := .collect 0 }
  | .collect i =>
    if i < 2 then
      match s.timesChan with
      | [] => s
      | m :: rest =>
        { s with timesChan := rest, seenTimes := s.seenTimes ++ [m.src],
                 timings := goAssign s.timings m.key m.value, main := .collect (i + 1) }
    else { s with main := .returned ⟨some (urlMap c.videoID), some s.timings, none⟩ }
  | .returned _ => s

/-- One step of thread `t`. -/
def step (c : Call) (s : State) : Tid → State
  | .job j => stepJob c j s
  | .main => stepMain c s

/-- Run a schedule from state `s`. -/
def exec (c : Call) (sched : List Tid) (s : State) : State :=
  sched.foldl (step c) s

/-- The function `transcodeVideo` under the schedule `sched`: the state reached
from the initial state. -/
def transcodeVideo (c : Call) (sched : List Tid) : State :=
  exec c sched State.init

/-- A schedule suffix in which every thread gets as many steps as its program
has statements. -/
def drain : List Tid :=
  [.job .hls, .job .hls, .job .hls, .job .dash, .job .dash, .job .dash,
   .main, .main, .main, .main, .main, .main]

/-- The encoder of job `j` succeeded. -/
def Call.ok (c : Call) (j : Job) : Prop := (c.run j).err = none

instance (c : Call) (j : Job) : Decidable (c.ok j) :=
  inferInstanceAs (Decidable ((c.run j).err = none))

/-! ## `handleVideoUpload` -/

/-- The request data and the outcomes of the collaborators of one upload:
the query parameter `codec` when present, the name of the uploaded file when
`c.FormFile` succeeds, the generated identifier, whether saving succeeds, the
result of `transcodeVideo` and the two clock readings. -/
structure Upload where
  codecQuery : Option String
  fileName : Option String
  videoID : String
  saveOk : Bool
  transcode : Ret
  uploadDuration : Float64
  totalDuration : Float64

/-- The JSON body of a response. -/
inductive Body where
  | error (msg : String)
  | ok (id hlsUrl dashUrl : String)
      (uploadDuration hlsTranscode dashTranscode totalDuration : Float64)
  deriving DecidableEq, Repr

/-- The calls made by the handler that matter here. -/
inductive Effect where
  | saveUploadedFile (filename : String)
  | transcodeVideo (inputPath videoID storagePath codec : String)
  deriving DecidableEq, Repr

/-- A response: status code, body, and the log of calls made. -/
structure Response where
  status : Nat
  body : Body
  effects : List Effect
  deriving DecidableEq, Repr

/-- The handler returned by `handleVideoUpload(storagePath)`. -/
def handleVideoUpload (storagePath : String) (u : Upload) : Response :=
  let codec := u.codecQuery.getD "avc"
  if isValidCodec codec = false then
    ⟨400, .error "Invalid codec. Use av1, hevc, or avc", []⟩
  else
    match u.fileName with
    | none => ⟨400, .error "No video file uploaded", []⟩
    | some name =>
      let filename := filepath.Join [storagePath, "uploads", u.videoID ++ filepath.Ext name]
      if u.saveOk = false then
        ⟨500, .error "Failed to save video", [.saveUploadedFile filename]⟩
      else
        let effects := [Effect.saveUploadedFile filename,
                        Effect.transcodeVideo filename u.videoID storagePath codec]
        match u.transcode.err with
        | some _ => ⟨500, .error "Failed to transcode video", effects⟩
        | none =>
          ⟨200, .ok u.videoID (goIndex (u.transcode.urls.getD []) "hls" "")
                  (goIndex (u.transcode.urls.getD []) "dash" "")
                  u.uploadDuration
                  (goIndex (u.transcode.timings.getD []) "hlsTranscode" 0)
                  (goIndex (u.transcode.timings.getD []) "dashTranscode" 0)
                  u.totalDuration, effects⟩

/-! ## Statements taken from the specification, for comparison -/

/-- The flags the specification lists for codec `avc` on the software path:
`libx264`, `-preset ultrafast`, `-profile:v baseline`, `-b:v 2M`, the closed-GOP
pairs and AAC audio at `128k`. -/
def specAvcFlags (out : List String) : Bool :=
  hasPair out "-c:v" "libx264" && hasPair out "-preset" "ultrafast" &&
  hasPair out "-profile:v" "baseline" && hasPair out "-b:v" "2M" &&
  hasPair out "-g" "48" && hasPair out "-keyint_min" "48" &&
  hasPair out "-sc_threshold" "0" && hasPair out "-bf" "0" &&
  hasPair out "-c:a" "aac" && hasPair out "-b:a" "128k"

/-- The HLS argument vector as the specification writes it, with the paths as
the plain text `S/hls/R/...`. -/
def specHlsArgs (c : Call) : List String :=
  c.inputParams ++ ["-i", c.inputPath] ++ c.outputParams ++
    ["-hls_time", "4", "-hls_playlist_type", "vod", "-hls_segment_filename",
     c.storagePath ++ "/hls/" ++ c.videoID ++ "/segment_%03d.ts",
     c.storagePath ++ "/hls/" ++ c.videoID ++ "/playlist.m3u8"]

/-- The DASH argument vector as the specification writes it. -/
def specDashArgs (c : Call) : List String :=
  c.inputParams ++ ["-i", c.inputPath] ++ c.outputParams ++
    ["-f", "dash", "-use_timeline", "1", "-use_template", "1", "-seg_duration", "4",
     "-adaptation_sets", "id=0,streams=v id=1,streams=a",
     c.storagePath ++ "/dash/" ++ c.videoID ++ "/manifest.mpd"]

/-- A call with the default configuration of `main`: storage root `./videos`,
no `HW_ACCEL` in the environment; the HLS encoder fails, the DASH one succeeds. -/
def demoCall : Call :=
  { inputPath := "videos/uploads/v.mp4", videoID := "v", storagePath := "./videos",
    codec := "avc", env := fun _ => none,
    hlsRun := ⟨some "exit status 1", 7⟩, dashRun := ⟨none, 9⟩ }

/-- The same call with both encoders succeeding. -/
def demoCallOk : Call := { demoCall with hlsRun := ⟨none, 7⟩ }

/-! ## Invariant of the transition system -/

/-- The value goroutine `j` sends on `errChan`. -/
def Call.errVal (c : Call) (j : Job) : Option String := ((c.run j).err).map (errText j)

/-- Number of sends on `errChan` goroutine `j` still has to do. -/
def pendErr : WorkerPc → Nat
  | .done => 0
  | _ => 1

/-- Number of sends on `timesChan` goroutine `j` still has to do. -/
def pendTime (c : Call) (j : Job) : WorkerPc → Nat
  | .start => if c.ok j then 1 else 0
  | .sendTime _ => 1
  | _ => 0

/-- An upper bound of the number of steps goroutine `j` still takes. -/
def jobDist : WorkerPc → Nat
  | .start => 3
  | .sendTime _ => 2
  | .sendErr _ => 1
  | .sendNil => 1
  | .done => 0

/-- An upper bound of the number of steps the caller still takes. -/
def mainDist : MainPc → Nat
  | .waitErr i => 4 + (2 - i)
  | .collect i => 1 + (2 - i)
  | .returned _ => 0

/-- What the program counter of the caller says about the ghost logs. -/
def MainInv (c : Call) (s : State) : Prop :=
  match s.main with
  | .waitErr i => i = s.seenErr.length ∧ (∀ j ∈ s.seenErr, c.ok j) ∧ s.seenTimes = []
  | .collect i => s.seenErr.length = 2 ∧ (∀ j ∈ s.seenErr, c.ok j) ∧ i = s.seenTimes.length
  | .returned r =>
    (s.seenErr.length = 2 ∧ (∀ j ∈ s.seenErr, c.ok j) ∧ s.seenTimes.length = 2 ∧
        ∃ t, r = ⟨some (urlMap c.videoID), some t, none⟩) ∨
    (∃ l j e, s.seenErr = l ++ [j] ∧ (∀ k ∈ l, c.ok k) ∧ (c.run j).err = some e ∧
        r = ⟨none, none, some (errText j e)⟩ ∧ s.seenTimes = [])

/-- The invariant: program counters agree with the encoder outcomes, every
goroutine contributes exactly one value to `errChan` (sent, in the channel or
received) and one to `timesChan` when it succeeds, every command run is the
one of its job, and the caller has read what its program counter says. -/
structure Inv (c : Call) (s : State) : Prop where
  pcErr : ∀ j t, s.pc j = .sendErr t → ∃ e, (c.run j).err = some e ∧ t = errText j e
  pcTime : ∀ j v, s.pc j = .sendTime v → c.ok j ∧ v = (c.run j).secs
  pcNil : ∀ j, s.pc j = .sendNil → c.ok j
  errMsgs : ∀ m ∈ s.errChan, m.err = c.errVal m.src
  errTok : ∀ j, s.seenErr.count j + (s.errChan.map ErrMsg.src).count j + pendErr (s.pc j) = 1
  timeTok : ∀ j, s.seenTimes.count j + (s.timesChan.map TimeMsg.src).count j
      + pendTime c j (s.pc j) = if c.ok j then 1 else 0
  spawnTok : ∀ j, (s.spawned.map Prod.fst).count j + (if s.pc j = .start then 1 else 0) = 1
  spawnArgs : ∀ x ∈ s.spawned, x.2 = "ffmpeg" :: c.args x.1
  main : MainInv c s

/-! ## Paths: the iteration bound of `filepath.Clean` is enough -/

theorem dropWhile_length_le (p : Char → Bool) (l : List Char) :
    (l.dropWhile p).length ≤ l.length := by
  induction l with
  | nil => simp
  | cons a l ih =>
    simp only [List.dropWhile_cons]
    split
    · simp only [List.length_cons]; omega
    · exact Nat.le_refl _

/-- Any two iteration bounds that are at least the number of unread bytes give
the same result: the loop of `filepath.Clean` is never cut short. -/
theorem cleanLoop_fuel (rooted : Bool) (f1 : Nat) :
    ∀ (f2 : Nat) (path rout : List Char) (dotdot : Nat),
      path.length ≤ f1 → path.length ≤ f2 →
      filepath.cleanLoop rooted f1 path rout dotdot =
        filepath.cleanLoop rooted f2 path rout dotdot := by
  induction f1 with
  | zero =>
    intro f2 path rout dotdot h1 _
    have hp : path = [] := List.length_eq_zero.1 (by omega)
    subst hp
    cases f2 <;> simp [filepath.cleanLoop]
  | succ n ih =>
    intro f2 path rout dotdot h1 h2
    cases path with
    | nil => cases f2 <;> simp [filepath.cleanLoop]
    | cons c rest =>
      cases f2 with
      | zero => simp at h2
      | succ m =>
        simp only [List.length_cons, Nat.add_le_add_iff_right] at h1 h2
        have ht1 : rest.tail.length ≤ n := by simp; omega
        have ht2 : rest.tail.length ≤ m := by simp; omega
        simp only [filepath.cleanLoop]
        have hd : ¬ c = '/' → (c :: rest).dropWhile (fun x => decide (x ≠ '/'))
            = rest.dropWhile (fun x => decide (x ≠ '/')) := by
          intro a1
          simp [List.dropWhile_cons, a1]
        have hl := dropWhile_length_le (fun x => decide (x ≠ '/')) rest
        split_ifs with a1
        all_goals first
          | exact ih _ _ _ _ h1 h2
          | exact ih _ _ _ _ ht1 ht2
          | (rw [hd a1]; exact ih _ _ _ _ (by omega) (by omega))
          | (cases rout <;> exact ih _ _ _ _ ht1 ht2)

/-! ## The parameter matrix: theorems -/

/-- C1 (as written, refuted): the profile `none` is not a case of the `switch`
on `hwAccel`, so it takes the default branch, whose `avc` output has no
`libx264` and none of the listed software flags except the bitrate and audio. -/
theorem C1_none_avc_counterexample :
    specAvcFlags (splitFFmpegParams "none" "avc").2 = false ∧
    "libx264" ∉ (splitFFmpegParams "none" "avc").2 ∧
    hasPair (splitFFmpegParams "none" "avc").2 "-preset" "ultrafast" = false ∧
    hasPair (splitFFmpegParams "none" "avc").2 "-g" "48" = false := by
  decide

/-- C1 (amended): for codec `avc`, profile `none` yields the default-branch
result, input flags `-hwaccel videotoolbox` and exactly the self-contained
output list, which has `-b:v 2M` and AAC at `128k`; the full list of software
flags of the specification is included in the output for the profiles
`nvidia`, `intel` and `amd`, and in the baseline chosen by codec alone. -/
theorem C1_avc_flags :
    splitFFmpegParams "none" "avc" =
      (["-hwaccel", "videotoolbox"],
       ["-c:v", "h264_videotoolbox", "-b:v", "2M", "-maxrate", "2.5M", "-bufsize", "5M",
        "-pix_fmt", "nv12", "-c:a", "aac", "-b:a", "128k"]) ∧
    hasPair (splitFFmpegParams "none" "avc").2 "-b:v" "2M" = true ∧
    hasPair (splitFFmpegParams "none" "avc").2 "-c:a" "aac" = true ∧
    hasPair (splitFFmpegParams "none" "avc").2 "-b:a" "128k" = true ∧
    specAvcFlags (commonOutput "avc") = true ∧
    specAvcFlags (splitFFmpegParams "nvidia" "avc").2 = true ∧
    specAvcFlags (splitFFmpegParams "intel" "avc").2 = true ∧
    specAvcFlags (splitFFmpegParams "amd" "avc").2 = true := by
  decide

/-- C2: for codec `av1` the profiles `intel` and `amd` return no input flags
and the AV1 software baseline as output flags, the same output list as the
profile `none`. -/
theorem C2_av1_fallback :
    splitFFmpegParams "intel" "av1" =
      ([], ["-c:v", "libaom-av1", "-crf", "30", "-b:v", "0", "-strict", "experimental",
            "-c:a", "aac", "-b:a", "128k"]) ∧
    splitFFmpegParams "amd" "av1" =
      ([], ["-c:v", "libaom-av1", "-crf", "30", "-b:v", "0", "-strict", "experimental",
            "-c:a", "aac", "-b:a", "128k"]) ∧
    (splitFFmpegParams "intel" "av1").2 = (splitFFmpegParams "none" "av1").2 ∧
    (splitFFmpegParams "amd" "av1").2 = (splitFFmpegParams "none" "av1").2 := by
  decide

/-- C3: for codec `av1` and profile `nvidia` the input flags are exactly
`-hwaccel cuda` and the output flags are `-c:v av1_nvenc` followed by the whole
AV1 software baseline and nothing else. -/
theorem C3_nvidia_av1 :
    splitFFmpegParams "nvidia" "av1" =
      (["-hwaccel", "cuda"],
       ["-c:v", "av1_nvenc"] ++
         ["-c:v", "libaom-av1", "-crf", "30", "-b:v", "0", "-strict", "experimental",
          "-c:a", "aac", "-b:a", "128k"]) ∧
    (splitFFmpegParams "nvidia" "av1").2 = ["-c:v", "av1_nvenc"] ++ commonOutput "av1" := by
  decide

/-- C9: for every hardware profile and codec other than the default (macos)
branch with `avc`, the baseline chosen by codec alone is a suffix of the output
flags; in the default branch with `avc` the output flags are exactly the
self-contained videotoolbox list, which has none of `-g`, `-keyint_min`,
`-sc_threshold`, `-bf`, `-preset`, `-movflags` and does not end with the
baseline. -/
theorem C9_baseline_appended (hwAccel codec : String) :
    ((hwAccel = "nvidia" ∨ hwAccel = "intel" ∨ hwAccel = "amd" ∨ codec ≠ "avc") →
      commonOutput codec <:+ (splitFFmpegParams hwAccel codec).2) ∧
    ((hwAccel ≠ "nvidia" ∧ hwAccel ≠ "intel" ∧ hwAccel ≠ "amd") →
      (splitFFmpegParams hwAccel "avc").2 =
          ["-c:v", "h264_videotoolbox", "-b:v", "2M", "-maxrate", "2.5M", "-bufsize", "5M",
           "-pix_fmt", "nv12", "-c:a", "aac", "-b:a", "128k"] ∧
        (∀ f ∈ ["-g", "-keyint_min", "-sc_threshold", "-bf", "-preset", "-movflags"],
          f ∉ (splitFFmpegParams hwAccel "avc").2) ∧
        ¬ commonOutput "avc" <:+ (splitFFmpegParams hwAccel "avc").2) := by
  constructor
  · intro h
    unfold splitFFmpegParams
    split_ifs <;> first
      | exact List.suffix_refl _
      | exact List.suffix_append _ _
      | (exfalso; rcases h with h | h | h | h <;> simp_all)
  · rintro ⟨h1, h2, h3⟩
    have hout : (splitFFmpegParams hwAccel "avc").2 =
        ["-c:v", "h264_videotoolbox", "-b:v", "2M", "-maxrate", "2.5M", "-bufsize", "5M",
         "-pix_fmt", "nv12", "-c:a", "aac", "-b:a", "128k"] := by
      simp [splitFFmpegParams, h1, h2, h3]
    rw [hout]
    refine ⟨rfl, by decide, by decide⟩

/-- C9 witness: profile `nvidia` with `hevc`, and the default branch reached
with `macos`. -/
theorem C9_baseline_appended_witness :
    commonOutput "hevc" <:+ (splitFFmpegParams "nvidia" "hevc").2 ∧
    (splitFFmpegParams "macos" "avc").2 =
      ["-c:v", "h264_videotoolbox", "-b:v", "2M", "-maxrate", "2.5M", "-bufsize", "5M",
       "-pix_fmt", "nv12", "-c:a", "aac", "-b:a", "128k"] :=
  ⟨(C9_baseline_appended "nvidia" "hevc").1 (Or.inl rfl),
   ((C9_baseline_appended "macos" "avc").2 (by decide)).1⟩

/-- C10: in each of the eight (profile, codec) pairs where a hardware encoder
is prepended (the last one being `hevc` in the default branch, taken by `macos`
and by every profile that is not `nvidia`, `intel` or `amd`), `-c:v` occurs
exactly twice in the output flags; its first occurrence selects the hardware
encoder and its last the software baseline encoder of the codec. -/
theorem C10_two_encoder_selections (hwAccel : String) :
    (List.count "-c:v" (splitFFmpegParams "nvidia" "av1").2 = 2 ∧
      valuesOf (splitFFmpegParams "nvidia" "av1").2 "-c:v" = ["av1_nvenc", "libaom-av1"]) ∧
    (List.count "-c:v" (splitFFmpegParams "nvidia" "hevc").2 = 2 ∧
      valuesOf (splitFFmpegParams "nvidia" "hevc").2 "-c:v" = ["hevc_nvenc", "libx265"]) ∧
    (List.count "-c:v" (splitFFmpegParams "nvidia" "avc").2 = 2 ∧
      valuesOf (splitFFmpegParams "nvidia" "avc").2 "-c:v" = ["h264_nvenc", "libx264"]) ∧
    (List.count "-c:v" (splitFFmpegParams "intel" "hevc").2 = 2 ∧
      valuesOf (splitFFmpegParams "intel" "hevc").2 "-c:v" = ["hevc_qsv", "libx265"]) ∧
    (List.count "-c:v" (splitFFmpegParams "intel" "avc").2 = 2 ∧
      valuesOf (splitFFmpegParams "intel" "avc").2 "-c:v" = ["h264_qsv", "libx264"]) ∧
    (List.count "-c:v" (splitFFmpegParams "amd" "hevc").2 = 2 ∧
      valuesOf (splitFFmpegParams "amd" "hevc").2 "-c:v" = ["hevc_amf", "libx265"]) ∧
    (List.count "-c:v" (splitFFmpegParams "amd" "avc").2 = 2 ∧
      valuesOf (splitFFmpegParams "amd" "avc").2 "-c:v" = ["h264_amf", "libx264"]) ∧
    (List.count "-c:v" (splitFFmpegParams "macos" "hevc").2 = 2 ∧
      valuesOf (splitFFmpegParams "macos" "hevc").2 "-c:v" = ["hevc_videotoolbox", "libx265"]) ∧
    ((hwAccel ≠ "nvidia" ∧ hwAccel ≠ "intel" ∧ hwAccel ≠ "amd") →
      List.count "-c:v" (splitFFmpegParams hwAccel "hevc").2 = 2 ∧
      valuesOf (splitFFmpegParams hwAccel "hevc").2 "-c:v" = ["hevc_videotoolbox", "libx265"]) := by
  refine ⟨by decide, by decide, by decide, by decide, by decide, by decide, by decide,
    by decide, ?_⟩
  rintro ⟨h1, h2, h3⟩
  have hout : (splitFFmpegParams hwAccel "hevc").2 = (splitFFmpegParams "macos" "hevc").2 := by
    simp [splitFFmpegParams, h1, h2, h3]
  rw [hout]
  decide

/-- C10 witness: the default branch reached with the unknown profile `apple`. -/
theorem C10_two_encoder_selections_witness :
    ("apple" ≠ "nvidia" ∧ "apple" ≠ "intel" ∧ "apple" ≠ "amd") ∧
    List.count "-c:v" (splitFFmpegParams "apple" "hevc").2 = 2 ∧
    valuesOf (splitFFmpegParams "apple" "hevc").2 "-c:v" = ["hevc_videotoolbox", "libx265"] :=
  ⟨by decide, (C10_two_encoder_selections "apple").2.2.2.2.2.2.2.2 (by decide)⟩

/-! ## The upload boundary: theorems -/

/-- C8: `isValidCodec` accepts exactly `av1`, `hevc` and `avc`; the handler
answers every other codec value with status 400 and makes no call at all, and
whenever it does call `transcodeVideo` the codec passed is one of the three. -/
theorem C8_codec_validation :
    (∀ c : String, isValidCodec c = true ↔ (c = "av1" ∨ c = "hevc" ∨ c = "avc")) ∧
    (∀ (storagePath : String) (u : Upload) (c : String),
      u.codecQuery = some c → ¬ (c = "av1" ∨ c = "hevc" ∨ c = "avc") →
      handleVideoUpload storagePath u =
        ⟨400, .error "Invalid codec. Use av1, hevc, or avc", []⟩) ∧
    (∀ (storagePath : String) (u : Upload) (a b d e : String),
      Effect.transcodeVideo a b d e ∈ (handleVideoUpload storagePath u).effects →
      e = "av1" ∨ e = "hevc" ∨ e = "avc") := by
  have hvalid : ∀ c : String, isValidCodec c = true ↔ (c = "av1" ∨ c = "hevc" ∨ c = "avc") := by
    intro c
    unfold isValidCodec goIndex
    by_cases h1 : c = "av1"
    · subst h1; decide
    by_cases h2 : c = "hevc"
    · subst h2; decide
    by_cases h3 : c = "avc"
    · subst h3; decide
    have e1 : (c == "av1") = false := by simpa using h1
    have e2 : (c == "hevc") = false := by simpa using h2
    have e3 : (c == "avc") = false := by simpa using h3
    simp [List.lookup, h1, h2, h3, e1, e2, e3]
  refine ⟨hvalid, ?_, ?_⟩
  · intro sp u c hc hne
    have hf : isValidCodec c = false := by
      cases h : isValidCodec c
      · rfl
      · exact absurd ((hvalid c).1 h) hne
    simp [handleVideoUpload, hc, hf]
  · intro sp u a b d e hmem
    unfold handleVideoUpload at hmem
    cases hv : isValidCodec (u.codecQuery.getD "avc")
    · simp [hv] at hmem
    · cases hfile : u.fileName with
      | none => simp [hv, hfile] at hmem
      | some name =>
        cases hsave : u.saveOk
        · simp [hv, hfile, hsave] at hmem
        · cases herr : u.transcode.err <;>
            simp [hv, hfile, hsave, herr] at hmem <;>
            (obtain ⟨-, -, -, rfl⟩ := hmem; exact (hvalid _).1 hv)

/-- C8 witness: the empty string and an upper-case name are rejected. -/
theorem C8_codec_validation_witness :
    ¬ ("AVC" = "av1" ∨ "AVC" = "hevc" ∨ "AVC" = "avc") ∧
    ¬ (isValidCodec "" = true) ∧
    handleVideoUpload "./videos"
        ⟨some "AVC", some "clip.mp4", "id", true, ⟨none, none, none⟩, 0, 0⟩ =
      ⟨400, .error "Invalid codec. Use av1, hevc, or avc", []⟩ :=
  ⟨by decide, fun h => absurd ((C8_codec_validation.1 "").1 h) (by decide),
   C8_codec_validation.2.1 "./videos" _ "AVC" rfl (by decide)⟩

/-! ## `transcodeVideo`: invariant -/

theorem length_eq_count_jobs (l : List Job) : l.length = l.count .hls + l.count .dash := by
  induction l with
  | nil => rfl
  | cons a l ih => cases a <;> simp [List.count_cons, ih] <;> omega

theorem inv_init (c : Call) : Inv c State.init where
  pcErr := by intro j t h; cases j <;> simp [State.init, State.pc] at h
  pcTime := by intro j v h; cases j <;> simp [State.init, State.pc] at h
  pcNil := by intro j h; cases j <;> simp [State.init, State.pc] at h
  errMsgs := by intro m h; simp [State.init] at h
  errTok := by intro j; cases j <;> simp [State.init, State.pc, pendErr]
  timeTok := by intro j; cases j <;> simp [State.init, State.pc, pendTime]
  spawnTok := by intro j; cases j <;> simp [State.init, State.pc]
  spawnArgs := by intro x h; simp [State.init] at h
  main := by simp [MainInv, State.init]

@[simp] theorem pc_setPc (s : State) (j k : Job) (p : WorkerPc) :
    (s.setPc j p).pc k = if k = j then p else s.pc k := by
  cases j <;> cases k <;> simp [State.setPc, State.pc]

@[simp] theorem main_setPc (s : State) (j : Job) (p : WorkerPc) :
    (s.setPc j p).main = s.main := by cases j <;> rfl

@[simp] theorem errChan_setPc (s : State) (j : Job) (p : WorkerPc) :
    (s.setPc j p).errChan = s.errChan := by cases j <;> rfl

@[simp] theorem timesChan_setPc (s : State) (j : Job) (p : WorkerPc) :
    (s.setPc j p).timesChan = s.timesChan := by cases j <;> rfl

@[simp] theorem timings_setPc (s : State) (j : Job) (p : WorkerPc) :
    (s.setPc j p).timings = s.timings := by cases j <;> rfl

@[simp] theorem spawned_setPc (s : State) (j : Job) (p : WorkerPc) :
    (s.setPc j p).spawned = s.spawned := by cases j <;> rfl

@[simp] theorem seenErr_setPc (s : State) (j : Job) (p : WorkerPc) :
    (s.setPc j p).seenErr = s.seenErr := by cases j <;> rfl

@[simp] theorem seenTimes_setPc (s : State) (j : Job) (p : WorkerPc) :
    (s.setPc j p).seenTimes = s.seenTimes := by cases j <;> rfl

@[simp] theorem pc_logSpawn (s : State) (x : Job × List String) (k : Job) :
    (s.logSpawn x).pc k = s.pc k := by cases k <;> rfl

@[simp] theorem pc_pushErr (s : State) (m : ErrMsg) (k : Job) :
    (s.pushErr m).pc k = s.pc k := by cases k <;> rfl

@[simp] theorem pc_pushTime (s : State) (m : TimeMsg) (k : Job) :
    (s.pushTime m).pc k = s.pc k := by cases k <;> rfl

@[simp] theorem main_logSpawn (s : State) (x : Job × List String) :
    (s.logSpawn x).main = s.main := rfl

@[simp] theorem errChan_logSpawn (s : State) (x : Job × List String) :
    (s.logSpawn x).errChan = s.errChan := rfl

@[simp] theorem timesChan_logSpawn (s : State) (x : Job × List String) :
    (s.logSpawn x).timesChan = s.timesChan := rfl

@[simp] theorem timings_logSpawn (s : State) (x : Job × List String) :
    (s.logSpawn x).timings = s.timings := rfl

@[simp] theorem spawned_logSpawn (s : State) (x : Job × List String) :
    (s.logSpawn x).spawned = s.spawned ++ [x] := rfl

@[simp] theorem seenErr_logSpawn (s : State) (x : Job × List String) :
    (s.logSpawn x).seenErr = s.seenErr := rfl

@[simp] theorem seenTimes_logSpawn (s : State) (x : Job × List String) :
    (s.logSpawn x).seenTimes = s.seenTimes := rfl

@[simp] theorem main_pushErr (s : State) (m : ErrMsg) :
    (s.pushErr m).main = s.main := rfl

@[simp] theorem errChan_pushErr (s : State) (m : ErrMsg) :
    (s.pushErr m).errChan = s.errChan ++ [m] := rfl

@[simp] theorem timesChan_pushErr (s : State) (m : ErrMsg) :
    (s.pushErr m).timesChan = s.timesChan := rfl

@[simp] theorem timings_pushErr (s : State) (m : ErrMsg) :
    (s.pushErr m).timings = s.timings := rfl

@[simp] theorem spawned_pushErr (s : State) (m : ErrMsg) :
    (s.pushErr m).spawned = s.spawned := rfl

@[simp] theorem seenErr_pushErr (s : State) (m : ErrMsg) :
    (s.pushErr m).seenErr = s.seenErr := rfl

@[simp] theorem seenTimes_pushErr (s : State) (m : ErrMsg) :
    (s.pushErr m).seenTimes = s.seenTimes := rfl

@[simp] theorem main_pushTime (s : State) (m : TimeMsg) :
    (s.pushTime m).main = s.main := rfl

@[simp] theorem errChan_pushTime (s : State) (m : TimeMsg) :
    (s.pushTime m).errChan = s.errChan := rfl

@[simp] theorem timesChan_pushTime (s : State) (m : TimeMsg) :
    (s.pushTime m).timesChan = s.timesChan ++ [m] := rfl

@[simp] theorem timings_pushTime (s : State) (m : TimeMsg) :
    (s.pushTime m).timings = s.timings := rfl

@[simp] theorem spawned_pushTime (s : State) (m : TimeMsg) :
    (s.pushTime m).spawned = s.spawned := rfl

@[simp] theorem seenErr_pushTime (s : State) (m : TimeMsg) :
    (s.pushTime m).seenErr = s.seenErr := rfl

@[simp] theorem seenTimes_pushTime (s : State) (m : TimeMsg) :
    (s.pushTime m).seenTimes = s.seenTimes := rfl

theorem mainInv_congr (c : Call) (s s1 : State) (hm : s1.main = s.main)
    (he : s1.seenErr = s.seenErr) (ht : s1.seenTimes = s.seenTimes) (h : MainInv c s) :
    MainInv c s1 := by
  unfold MainInv at *
  rw [hm, he, ht]
  exact h

theorem inv_stepJob (c : Call) (s : State) (j0 : Job) (h : Inv c s) :
    Inv c (stepJob c j0 s) := by
  cases hp : s.pc j0 with
  | start =>
    cases hr : (c.run j0).err with
    | none =>
      simp only [stepJob, hp, hr]
      refine ⟨?_, ?_, ?_, ?_, ?_, ?_, ?_, ?_, ?_⟩
      · intro j t hj
        by_cases e : j = j0
        · subst e; simp at hj
        · simp [e] at hj; exact h.pcErr j t hj
      · intro j v hj
        by_cases e : j = j0
        · subst e; simp at hj; exact ⟨hr, hj.symm⟩
        · simp [e] at hj; exact h.pcTime j v hj
      · intro j hj
        by_cases e : j = j0
        · subst e; simp at hj
        · simp [e] at hj; exact h.pcNil j hj
      · intro m hm
        simp at hm; exact h.errMsgs m hm
      · intro j
        have := h.errTok j
        by_cases e : j = j0
        · subst e; simp [hp, pendErr] at this ⊢; omega
        · simpa [e] using this
      · intro j
        have := h.timeTok j
        by_cases e : j = j0
        · subst e; simp [hp, pendTime, Call.ok, hr] at this ⊢; omega
        · simpa [e] using this
      · intro j
        have := h.spawnTok j
        by_cases e : j = j0
        · subst e; simp [hp, List.count_append] at this ⊢; omega
        · simp [e, List.count_append] at this ⊢
          exact this
      · intro x hx
        simp at hx
        rcases hx with hx | rfl
        · exact h.spawnArgs x hx
        · rfl
      · exact mainInv_congr c s _ (by simp) (by simp) (by simp) h.main
    | some e0 =>
      simp only [stepJob, hp, hr]
      refine ⟨?_, ?_, ?_, ?_, ?_, ?_, ?_, ?_, ?_⟩
      · intro j t hj
        by_cases e : j = j0
        · subst e; simp at hj; exact ⟨e0, hr, hj.symm⟩
        · simp [e] at hj; exact h.pcErr j t hj
      · intro j v hj
        by_cases e : j = j0
        · subst e; simp at hj
        · simp [e] at hj; exact h.pcTime j v hj
      · intro j hj
        by_cases e : j = j0
        · subst e; simp at hj
        · simp [e] at hj; exact h.pcNil j hj
      · intro m hm
        simp at hm; exact h.errMsgs m hm
      · intro j
        have := h.errTok j
        by_cases e : j = j0
        · subst e; simp [hp, pendErr] at this ⊢; omega
        · simpa [e] using this
      · intro j
        have := h.timeTok j
        by_cases e : j = j0
        · subst e; simp [hp, pendTime, Call.ok, hr] at this ⊢; omega
        · simpa [e] using this
      · intro j
        have := h.spawnTok j
        by_cases e : j = j0
        · subst e; simp [hp, List.count_append] at this ⊢; omega
        · simp [e, List.count_append] at this ⊢
          exact this
      · intro x hx
        simp at hx
        rcases hx with hx | rfl
        · exact h.spawnArgs x hx
        · rfl
      · exact mainInv_congr c s _ (by simp) (by simp) (by simp) h.main
  | sendErr t0 =>
    obtain ⟨e0, hr, ht0⟩ := h.pcErr j0 t0 hp
    simp only [stepJob, hp]
    split_ifs with hcap
    swap
    · exact h
    refine ⟨?_, ?_, ?_, ?_, ?_, ?_, ?_, ?_, ?_⟩
    · intro j t hj
      by_cases e : j = j0
      · subst e; simp at hj
      · simp [e] at hj; exact h.pcErr j t hj
    · intro j v hj
      by_cases e : j = j0
      · subst e; simp at hj
      · simp [e] at hj; exact h.pcTime j v hj
    · intro j hj
      by_cases e : j = j0
      · subst e; simp at hj
      · simp [e] at hj; exact h.pcNil j hj
    · intro m hm
      simp at hm
      rcases hm with hm | rfl
      · exact h.errMsgs m hm
      · simp [Call.errVal, hr, ht0]
    · intro j
      have := h.errTok j
      by_cases e : j = j0
      · subst e; simp [hp, pendErr, List.count_append] at this ⊢; omega
      · simp [e, List.count_append] at this ⊢
        exact this
    · intro j
      have := h.timeTok j
      by_cases e : j = j0
      · subst e; simp [hp, pendTime] at this ⊢; exact this
      · simpa [e] using this
    · intro j
      have := h.spawnTok j
      by_cases e : j = j0
      · subst e; simp [hp] at this ⊢; exact this
      · simpa [e] using this
    · intro x hx
      simp at hx
      exact h.spawnArgs x hx
    · exact mainInv_congr c s _ (by simp) (by simp) (by simp) h.main
  | sendTime v0 =>
    obtain ⟨hok, hv0⟩ := h.pcTime j0 v0 hp
    simp only [stepJob, hp]
    split_ifs with hcap
    swap
    · exact h
    refine ⟨?_, ?_, ?_, ?_, ?_, ?_, ?_, ?_, ?_⟩
    · intro j t hj
      by_cases e : j = j0
      · subst e; simp at hj
      · simp [e] at hj; exact h.pcErr j t hj
    · intro j v hj
      by_cases e : j = j0
      · subst e; simp at hj
      · simp [e] at hj; exact h.pcTime j v hj
    · intro j hj
      by_cases e : j = j0
      · subst e; exact hok
      · simp [e] at hj; exact h.pcNil j hj
    · intro m hm
      simp at hm
      exact h.errMsgs m hm
    · intro j
      have := h.errTok j
      by_cases e : j = j0
      · subst e; simp [hp, pendErr] at this ⊢; exact this
      · simpa [e] using this
    · intro j
      have := h.timeTok j
      by_cases e : j = j0
      · subst e; simp [hp, pendTime, List.count_append] at this ⊢; omega
      · simp [e, List.count_append] at this ⊢
        exact this
    · intro j
      have := h.spawnTok j
      by_cases e : j = j0
      · subst e; simp [hp] at this ⊢; exact this
      · simpa [e] using this
    · intro x hx
      simp at hx
      exact h.spawnArgs x hx
    · exact mainInv_congr c s _ (by simp) (by simp) (by simp) h.main
  | sendNil =>
    have hok := h.pcNil j0 hp
    simp only [stepJob, hp]
    split_ifs with hcap
    swap
    · exact h
    refine ⟨?_, ?_, ?_, ?_, ?_, ?_, ?_, ?_, ?_⟩
    · intro j t hj
      by_cases e : j = j0
      · subst e; simp at hj
      · simp [e] at hj; exact h.pcErr j t hj
    · intro j v hj
      by_cases e : j = j0
      · subst e; simp at hj
      · simp [e] at hj; exact h.pcTime j v hj
    · intro j hj
      by_cases e : j = j0
      · subst e; simp at hj
      · simp [e] at hj; exact h.pcNil j hj
    · intro m hm
      simp at hm
      rcases hm with hm | rfl
      · exact h.errMsgs m hm
      · have : (c.run j0).err = none := hok
        simp [Call.errVal, this]
    · intro j
      have := h.errTok j
      by_cases e : j = j0
      · subst e; simp [hp, pendErr, List.count_append] at this ⊢; omega
      · simp [e, List.count_append] at this ⊢
        exact this
    · intro j
      have := h.timeTok j
      by_cases e : j = j0
      · subst e; simp [hp, pendTime] at this ⊢; exact this
      · simpa [e] using this
    · intro j
      have := h.spawnTok j
      by_cases e : j = j0
      · subst e; simp [hp] at this ⊢; exact this
      · simpa [e] using this
    · intro x hx
      simp at hx
      exact h.spawnArgs x hx
    · exact mainInv_congr c s _ (by simp) (by simp) (by simp) h.main
  | done =>
    simp only [stepJob, hp]
    exact h

theorem errVal_eq_none (c : Call) (j : Job) (h : c.errVal j = none) : c.ok j := by
  unfold Call.errVal at h
  unfold Call.ok
  cases hr : (c.run j).err with
  | none => rfl
  | some e => simp [hr] at h

theorem errVal_eq_some (c : Call) (j : Job) (t : String) (h : c.errVal j = some t) :
    ∃ e, (c.run j).err = some e ∧ t = errText j e := by
  unfold Call.errVal at h
  cases hr : (c.run j).err with
  | none => simp [hr] at h
  | some e => simp [hr] at h; exact ⟨e, rfl, h.symm⟩

theorem seenErr_length_le (c : Call) (s : State) (h : Inv c s) : s.seenErr.length ≤ 2 := by
  have h1 := h.errTok .hls
  have h2 := h.errTok .dash
  have := length_eq_count_jobs s.seenErr
  omega

theorem seenTimes_length_le (c : Call) (s : State) (h : Inv c s) : s.seenTimes.length ≤ 2 := by
  have h1 := h.timeTok .hls
  have h2 := h.timeTok .dash
  have := length_eq_count_jobs s.seenTimes
  split_ifs at h1 h2 <;> omega

theorem inv_stepMain (c : Call) (s : State) (h : Inv c s) : Inv c (stepMain c s) := by
  cases hm : s.main with
  | waitErr i =>
    have hM := h.main
    simp only [MainInv, hm] at hM
    obtain ⟨hi, hok, hst⟩ := hM
    simp only [stepMain, hm]
    split_ifs with hlt
    · cases hch : s.errChan with
      | nil => exact h
      | cons m rest =>
        have hmsg := h.errMsgs m (by simp [hch])
        cases he : m.err with
        | some e =>
          simp only [he]
          rw [he] at hmsg
          obtain ⟨e0, hr, het⟩ := errVal_eq_some c m.src e hmsg.symm
          refine ⟨?_, ?_, ?_, ?_, ?_, ?_, ?_, ?_, ?_⟩
          · intro j t hj; exact h.pcErr j t (by cases j <;> exact hj)
          · intro j v hj; exact h.pcTime j v (by cases j <;> exact hj)
          · intro j hj; exact h.pcNil j (by cases j <;> exact hj)
          · intro x hx; exact h.errMsgs x (by simp [hch]; exact Or.inr hx)
          · intro j
            have := h.errTok j
            rw [hch] at this
            cases hs : m.src <;> cases j <;>
              simp [State.pc, List.count_append, List.count_cons, hs] at this ⊢ <;> omega
          · intro j
            have := h.timeTok j
            cases j <;> simp [State.pc] at this ⊢ <;> exact this
          · intro j
            have := h.spawnTok j
            cases j <;> simp [State.pc] at this ⊢ <;> exact this
          · exact h.spawnArgs
          · simp only [MainInv]
            exact Or.inr ⟨s.seenErr, m.src, e0, rfl, hok, hr, by rw [het], hst⟩
        | none =>
          simp only [he]
          rw [he] at hmsg
          have hsrc := errVal_eq_none c m.src hmsg.symm
          refine ⟨?_, ?_, ?_, ?_, ?_, ?_, ?_, ?_, ?_⟩
          · intro j t hj; exact h.pcErr j t (by cases j <;> exact hj)
          · intro j v hj; exact h.pcTime j v (by cases j <;> exact hj)
          · intro j hj; exact h.pcNil j (by cases j <;> exact hj)
          · intro x hx; exact h.errMsgs x (by simp [hch]; exact Or.inr hx)
          · intro j
            have := h.errTok j
            rw [hch] at this
            cases hs : m.src <;> cases j <;>
              simp [State.pc, List.count_append, List.count_cons, hs] at this ⊢ <;> omega
          · intro j
            have := h.timeTok j
            cases j <;> simp [State.pc] at this ⊢ <;> exact this
          · intro j
            have := h.spawnTok j
            cases j <;> simp [State.pc] at this ⊢ <;> exact this
          · exact h.spawnArgs
          · simp only [MainInv]
            refine ⟨by simp [hi], ?_, hst⟩
            intro j hj
            simp at hj
            rcases hj with hj | rfl
            · exact hok j hj
            · exact hsrc
    · have hlen := seenErr_length_le c s h
      refine ⟨?_, ?_, ?_, ?_, ?_, ?_, ?_, ?_, ?_⟩
      · intro j t hj; exact h.pcErr j t (by cases j <;> exact hj)
      · intro j v hj; exact h.pcTime j v (by cases j <;> exact hj)
      · intro j hj; exact h.pcNil j (by cases j <;> exact hj)
      · exact h.errMsgs
      · intro j
        have := h.errTok j
        cases j <;> simp [State.pc] at this ⊢ <;> exact this
      · intro j
        have := h.timeTok j
        cases j <;> simp [State.pc] at this ⊢ <;> exact this
      · intro j
        have := h.spawnTok j
        cases j <;> simp [State.pc] at this ⊢ <;> exact this
      · exact h.spawnArgs
      · simp only [MainInv]
        refine ⟨by omega, hok, by simp [hst]⟩
  | collect i =>
    have hM := h.main
    simp only [MainInv, hm] at hM
    obtain ⟨hse, hok, hi⟩ := hM
    simp only [stepMain, hm]
    split_ifs with hlt
    · cases hch : s.timesChan with
      | nil => exact h
      | cons m rest =>
        simp only []
        refine ⟨?_, ?_, ?_, ?_, ?_, ?_, ?_, ?_, ?_⟩
        · intro j t hj; exact h.pcErr j t (by cases j <;> exact hj)
        · intro j v hj; exact h.pcTime j v (by cases j <;> exact hj)
        · intro j hj; exact h.pcNil j (by cases j <;> exact hj)
        · exact h.errMsgs
        · intro j
          have := h.errTok j
          cases j <;> simp [State.pc] at this ⊢ <;> exact this
        · intro j
          have := h.timeTok j
          rw [hch] at this
          cases hs : m.src <;> cases j <;>
            simp [State.pc, List.count_append, List.count_cons, hs] at this ⊢ <;> omega
        · intro j
          have := h.spawnTok j
          cases j <;> simp [State.pc] at this ⊢ <;> exact this
        · exact h.spawnArgs
        · simp only [MainInv]
          exact ⟨hse, hok, by simp [hi]⟩
    · have hlen := seenTimes_length_le c s h
      refine ⟨?_, ?_, ?_, ?_, ?_, ?_, ?_, ?_, ?_⟩
      · intro j t hj; exact h.pcErr j t (by cases j <;> exact hj)
      · intro j v hj; exact h.pcTime j v (by cases j <;> exact hj)
      · intro j hj; exact h.pcNil j (by cases j <;> exact hj)
      · exact h.errMsgs
      · intro j
        have := h.errTok j
        cases j <;> simp [State.pc] at this ⊢ <;> exact this
      · intro j
        have := h.timeTok j
        cases j <;> simp [State.pc] at this ⊢ <;> exact this
      · intro j
        have := h.spawnTok j
        cases j <;> simp [State.pc] at this ⊢ <;> exact this
      · exact h.spawnArgs
      · simp only [MainInv]
        exact Or.inl ⟨hse, hok, by omega, s.timings, rfl⟩
  | returned r =>
    simp only [stepMain, hm]
    exact h

theorem inv_step (c : Call) (s : State) (t : Tid) (h : Inv c s) : Inv c (step c s t) := by
  cases t with
  | job j => exact inv_stepJob c s j h
  | main => exact inv_stepMain c s h

theorem inv_exec (c : Call) (sched : List Tid) (s : State) (h : Inv c s) :
    Inv c (exec c sched s) := by
  induction sched generalizing s with
  | nil => exact h
  | cons t rest ih => exact ih (step c s t) (inv_step c s t h)

theorem exec_append (c : Call) (a b : List Tid) (s : State) :
    exec c (a ++ b) s = exec c b (exec c a s) := by
  simp [exec, List.foldl_append]

theorem inv_transcodeVideo (c : Call) (sched : List Tid) : Inv c (transcodeVideo c sched) :=
  inv_exec c sched State.init (inv_init c)

/-! ## `transcodeVideo`: every thread terminates -/

theorem jobDist_eq_zero (p : WorkerPc) (h : jobDist p = 0) : p = .done := by
  cases p <;> simp [jobDist] at h ⊢

theorem mainDist_eq_zero (p : MainPc) (h : mainDist p = 0) : ∃ r, p = .returned r := by
  cases p with
  | waitErr i => simp [mainDist] at h
  | collect i => simp [mainDist] at h
  | returned r => exact ⟨r, rfl⟩

theorem errChan_length (s : State) :
    s.errChan.length = (s.errChan.map ErrMsg.src).count .hls
      + (s.errChan.map ErrMsg.src).count .dash := by
  rw [← length_eq_count_jobs]; simp

theorem timesChan_length (s : State) :
    s.timesChan.length = (s.timesChan.map TimeMsg.src).count .hls
      + (s.timesChan.map TimeMsg.src).count .dash := by
  rw [← length_eq_count_jobs]; simp

theorem jobDist_stepJob_other (c : Call) (s : State) (j k : Job) (hne : k ≠ j) :
    (stepJob c j s).pc k = s.pc k := by
  unfold stepJob
  split <;> (try split) <;> simp [hne]

theorem pc_stepMain (c : Call) (s : State) (k : Job) : (stepMain c s).pc k = s.pc k := by
  unfold stepMain
  split <;> (try split) <;> (try split) <;> (try split) <;> cases k <;> rfl

theorem jobDist_stepJob_le (c : Call) (s : State) (j : Job) :
    jobDist ((stepJob c j s).pc j) ≤ jobDist (s.pc j) := by
  unfold stepJob
  cases hp : s.pc j with
  | start => simp only []; split <;> simp [jobDist]
  | done => simp [jobDist, hp]
  | sendErr t => simp only []; split <;> simp [jobDist, hp]
  | sendNil => simp only []; split <;> simp [jobDist, hp]
  | sendTime v => simp only []; split <;> simp [jobDist, hp]

theorem jobDist_step_le (c : Call) (s : State) (t : Tid) (k : Job) :
    jobDist ((step c s t).pc k) ≤ jobDist (s.pc k) := by
  cases t with
  | main => simp [step, pc_stepMain]
  | job j =>
    by_cases e : k = j
    · subst e; exact jobDist_stepJob_le c s k
    · simp [step, jobDist_stepJob_other c s j k e]

theorem jobDist_stepJob_lt (c : Call) (s : State) (j : Job) (h : Inv c s) :
    jobDist ((stepJob c j s).pc j) ≤ jobDist (s.pc j) - 1 := by
  have hE1 := h.errTok .hls
  have hE2 := h.errTok .dash
  have hT1 := h.timeTok .hls
  have hT2 := h.timeTok .dash
  have hEl := errChan_length s
  have hTl := timesChan_length s
  have hT1b : (s.timesChan.map TimeMsg.src).count .hls + pendTime c .hls (s.pc .hls) ≤ 1 := by
    split_ifs at hT1 <;> omega
  have hT2b : (s.timesChan.map TimeMsg.src).count .dash + pendTime c .dash (s.pc .dash) ≤ 1 := by
    split_ifs at hT2 <;> omega
  unfold stepJob
  cases hp : s.pc j with
  | start => simp only []; split <;> simp [jobDist]
  | done => simp [jobDist, hp]
  | sendErr t =>
    have hcap : s.errChan.length < chanCap := by
      cases j <;> simp [hp, pendErr, chanCap] at hE1 hE2 ⊢ <;> omega
    simp [hcap, jobDist]
  | sendNil =>
    have hcap : s.errChan.length < chanCap := by
      cases j <;> simp [hp, pendErr, chanCap] at hE1 hE2 ⊢ <;> omega
    simp [hcap, jobDist]
  | sendTime v =>
    have hcap : s.timesChan.length < chanCap := by
      cases j <;> simp [hp, pendTime, chanCap] at hT1b hT2b ⊢ <;> omega
    simp [hcap, jobDist]

theorem jobDist_exec_le (c : Call) (sched : List Tid) (s : State) (k : Job) :
    jobDist ((exec c sched s).pc k) ≤ jobDist (s.pc k) := by
  induction sched generalizing s with
  | nil => exact Nat.le_refl _
  | cons t rest ih => exact Nat.le_trans (ih (step c s t)) (jobDist_step_le c s t k)

theorem jobDist_exec_replicate (c : Call) (n : Nat) (s : State) (j : Job) (h : Inv c s) :
    jobDist ((exec c (List.replicate n (.job j)) s).pc j) ≤ jobDist (s.pc j) - n := by
  induction n generalizing s with
  | zero => exact Nat.le_refl _
  | succ n ih =>
    have h1 := jobDist_stepJob_lt c s j h
    have h2 := ih (stepJob c j s) (inv_stepJob c s j h)
    simp only [List.replicate_succ, exec, List.foldl_cons, step] at h2 ⊢
    omega

theorem mainDist_stepMain (c : Call) (s : State) (h : Inv c s)
    (hh : s.pc .hls = .done) (hd : s.pc .dash = .done) :
    mainDist (stepMain c s).main ≤ mainDist s.main - 1 := by
  have hE1 := h.errTok .hls
  have hE2 := h.errTok .dash
  have hT1 := h.timeTok .hls
  have hT2 := h.timeTok .dash
  have hEl := errChan_length s
  have hTl := timesChan_length s
  have hSe := length_eq_count_jobs s.seenErr
  have hSt := length_eq_count_jobs s.seenTimes
  simp only [hh, hd, pendErr, pendTime] at hE1 hE2 hT1 hT2
  have hM := h.main
  cases hm : s.main with
  | returned r => simp [stepMain, hm, mainDist]
  | waitErr i =>
    simp only [MainInv, hm] at hM
    obtain ⟨hi, hok, hst⟩ := hM
    simp only [stepMain, hm]
    split_ifs with hlt
    · cases hch : s.errChan with
      | nil =>
        exfalso
        rw [hch] at hE1 hE2
        simp at hE1 hE2
        omega
      | cons m rest =>
        cases he : m.err with
        | none => simp [he, mainDist]; omega
        | some e => simp [he, mainDist]
    · simp [mainDist]
  | collect i =>
    simp only [MainInv, hm] at hM
    obtain ⟨hse, hok, hi⟩ := hM
    have ok1 : c.ok .hls := hok .hls (by
      have : 0 < s.seenErr.count .hls := by omega
      exact List.count_pos_iff.1 this)
    have ok2 : c.ok .dash := hok .dash (by
      have : 0 < s.seenErr.count .dash := by omega
      exact List.count_pos_iff.1 this)
    simp only [ok1, ok2, if_true] at hT1 hT2
    simp only [stepMain, hm]
    split_ifs with hlt
    · cases hch : s.timesChan with
      | nil =>
        exfalso
        rw [hch] at hT1 hT2
        simp at hT1 hT2
        omega
      | cons m rest => simp [mainDist]; omega
    · simp [mainDist]

theorem mainDist_exec_replicate (c : Call) (n : Nat) (s : State) (h : Inv c s)
    (hh : s.pc .hls = .done) (hd : s.pc .dash = .done) :
    mainDist (exec c (List.replicate n .main) s).main ≤ mainDist s.main - n := by
  induction n generalizing s with
  | zero => exact Nat.le_refl _
  | succ n ih =>
    have h1 := mainDist_stepMain c s h hh hd
    have h2 := ih (stepMain c s) (inv_stepMain c s h)
      (by rw [pc_stepMain]; exact hh) (by rw [pc_stepMain]; exact hd)
    simp only [List.replicate_succ, exec, List.foldl_cons, step] at h2 ⊢
    omega

theorem mainDist_le (p : MainPc) : mainDist p ≤ 6 := by
  cases p <;> simp [mainDist] <;> omega

theorem returns_after_drain (c : Call) (s : State) (h : Inv c s) :
    (exec c drain s).pc .hls = .done ∧ (exec c drain s).pc .dash = .done ∧
      ∃ r, (exec c drain s).main = .returned r := by
  have hdrain : drain = List.replicate 3 (.job .hls) ++ (List.replicate 3 (.job .dash)
      ++ List.replicate 6 .main) := rfl
  rw [hdrain, exec_append, exec_append]
  have i1 := inv_exec c (List.replicate 3 (.job .hls)) s h
  have d1 := jobDist_exec_replicate c 3 s .hls h
  have i2 := inv_exec c (List.replicate 3 (.job .dash)) _ i1
  have d2 := jobDist_exec_replicate c 3 _ .dash i1
  have d1b := jobDist_exec_le c (List.replicate 3 (.job .dash))
    (exec c (List.replicate 3 (.job .hls)) s) .hls
  have b1 : jobDist (s.pc .hls) ≤ 3 := by cases s.pc .hls <;> simp [jobDist]
  have b2 : jobDist ((exec c (List.replicate 3 (.job .hls)) s).pc .dash) ≤ 3 := by
    cases (exec c (List.replicate 3 (.job .hls)) s).pc .dash <;> simp [jobDist]
  have hh := jobDist_eq_zero _ (by omega : jobDist ((exec c (List.replicate 3 (.job .dash))
    (exec c (List.replicate 3 (.job .hls)) s)).pc .hls) = 0)
  have hd := jobDist_eq_zero _ (by omega : jobDist ((exec c (List.replicate 3 (.job .dash))
    (exec c (List.replicate 3 (.job .hls)) s)).pc .dash) = 0)
  have m1 := mainDist_exec_replicate c 6 _ i2 hh hd
  have m2 := mainDist_le (exec c (List.replicate 3 (.job .dash))
    (exec c (List.replicate 3 (.job .hls)) s)).main
  have e1 := jobDist_exec_le c (List.replicate 6 .main) (exec c (List.replicate 3 (.job .dash))
    (exec c (List.replicate 3 (.job .hls)) s)) .hls
  have e2 := jobDist_exec_le c (List.replicate 6 .main) (exec c (List.replicate 3 (.job .dash))
    (exec c (List.replicate 3 (.job .hls)) s)) .dash
  rw [hh] at e1
  rw [hd] at e2
  refine ⟨jobDist_eq_zero _ (by simpa [jobDist] using e1),
    jobDist_eq_zero _ (by simpa [jobDist] using e2), mainDist_eq_zero _ (by omega)⟩

/-! ## `transcodeVideo`: what is returned -/

theorem returned_cases (c : Call) (s : State) (h : Inv c s) (r : Ret)
    (hr : s.main = .returned r) :
    (c.ok .hls ∧ c.ok .dash ∧ s.seenErr.Perm [.hls, .dash] ∧ s.seenTimes.Perm [.hls, .dash] ∧
        ∃ t, r = ⟨some (urlMap c.videoID), some t, none⟩) ∨
    (∃ l j e, s.seenErr = l ++ [j] ∧ (∀ k ∈ l, c.ok k) ∧ (c.run j).err = some e ∧
        r = ⟨none, none, some (errText j e)⟩ ∧ s.seenTimes = []) := by
  have hM := h.main
  simp only [MainInv, hr] at hM
  rcases hM with ⟨hse, hok, hst, t, ht⟩ | hM
  · left
    have hE1 := h.errTok .hls
    have hE2 := h.errTok .dash
    have hT1 := h.timeTok .hls
    have hT2 := h.timeTok .dash
    have hSe := length_eq_count_jobs s.seenErr
    have hSt := length_eq_count_jobs s.seenTimes
    have c1 : s.seenErr.count .hls = 1 := by omega
    have c2 : s.seenErr.count .dash = 1 := by omega
    have ok1 : c.ok .hls := hok .hls (List.count_pos_iff.1 (by omega))
    have ok2 : c.ok .dash := hok .dash (List.count_pos_iff.1 (by omega))
    simp only [ok1, ok2, if_true] at hT1 hT2
    have c3 : s.seenTimes.count .hls = 1 := by omega
    have c4 : s.seenTimes.count .dash = 1 := by omega
    refine ⟨ok1, ok2, ?_, ?_, t, ht⟩
    · rw [List.perm_iff_count]
      intro a; cases a <;> simp [c1, c2]
    · rw [List.perm_iff_count]
      intro a; cases a <;> simp [c3, c4]
  · right; exact hM

/-- C4: whatever the encoder outcomes and the schedule, `transcodeVideo`
returns once every thread has had its steps; what it returns shows any sign of
success (a non-nil map or a nil error) only when both jobs succeeded, and as
soon as one job failed it is a non-nil error with nil URL and timing maps. -/
theorem C4_result_only_if_both_succeed (c : Call) (sched : List Tid) :
    (∃ r, (transcodeVideo c (sched ++ drain)).main = .returned r) ∧
    (∀ r, (transcodeVideo c sched).main = .returned r →
      ((r.urls ≠ none ∨ r.timings ≠ none ∨ r.err = none) →
        c.ok .hls ∧ c.ok .dash ∧ r.urls ≠ none ∧ r.timings ≠ none ∧ r.err = none) ∧
      ((¬ c.ok .hls ∨ ¬ c.ok .dash) → r.err ≠ none ∧ r.urls = none ∧ r.timings = none)) := by
  constructor
  · unfold transcodeVideo
    rw [exec_append]
    exact (returns_after_drain c _ (inv_exec c sched _ (inv_init c))).2.2
  · intro r hr
    rcases returned_cases c _ (inv_transcodeVideo c sched) r hr with
      ⟨ok1, ok2, -, -, t, rfl⟩ | ⟨l, j, e, -, -, hje, rfl, -⟩
    · refine ⟨fun _ => ⟨ok1, ok2, by simp, by simp, rfl⟩, fun hn => ?_⟩
      rcases hn with hn | hn
      · exact absurd ok1 hn
      · exact absurd ok2 hn
    · have hnot : ¬ c.ok j := by simp [Call.ok, hje]
      refine ⟨fun hs => ?_, fun _ => ⟨by simp, rfl, rfl⟩⟩
      simp at hs

/-- C4 witness: the DASH job succeeds and reports first, the HLS job fails. -/
theorem C4_result_only_if_both_succeed_witness :
    (transcodeVideo demoCall
        [.job .dash, .job .dash, .job .dash, .job .hls, .job .hls, .main, .main]).main =
      .returned ⟨none, none, some "HLS transcoding error: exit status 1"⟩ ∧
    ¬ demoCall.ok .hls ∧
    ((Ret.mk none none (some "HLS transcoding error: exit status 1")).err ≠ none ∧
      (Ret.mk none none (some "HLS transcoding error: exit status 1")).urls = none ∧
      (Ret.mk none none (some "HLS transcoding error: exit status 1")).timings = none) :=
  ⟨by decide, by decide,
   ((C4_result_only_if_both_succeed demoCall
      [.job .dash, .job .dash, .job .dash, .job .hls, .job .hls, .main, .main]).2
      ⟨none, none, some "HLS transcoding error: exit status 1"⟩ (by decide)).2
    (Or.inl (by decide))⟩

/-- C5 (as written, refuted): with the default call, in which the HLS encoder
fails, the schedule hls, hls, main makes the caller return the error after
receiving the HLS outcome only; the DASH goroutine has not yet run its command. -/
theorem C5_counterexample :
    (transcodeVideo demoCall [.job .hls, .job .hls, .main]).main =
      .returned ⟨none, none, some "HLS transcoding error: exit status 1"⟩ ∧
    (transcodeVideo demoCall [.job .hls, .job .hls, .main]).seenErr = [.hls] ∧
    (transcodeVideo demoCall [.job .hls, .job .hls, .main]).seenTimes = [] ∧
    (transcodeVideo demoCall [.job .hls, .job .hls, .main]).dash = .start := by
  decide

/-- C5 (amended): when `transcodeVideo` returns a result it has received exactly
one value of each job from `errChan` and one of each job from `timesChan`; when
it returns an error it has received at most one value per job from `errChan`,
one or two in all, the last of which is the failure it reports, every earlier
one being a success, and nothing from `timesChan`. -/
theorem C5_outcomes_consumed (c : Call) (sched : List Tid) (r : Ret)
    (hr : (transcodeVideo c sched).main = .returned r) :
    (r.err = none →
      (transcodeVideo c sched).seenErr.Perm [.hls, .dash] ∧
      (transcodeVideo c sched).seenTimes.Perm [.hls, .dash]) ∧
    (r.err ≠ none →
      (transcodeVideo c sched).seenErr.Nodup ∧
      1 ≤ (transcodeVideo c sched).seenErr.length ∧
      (transcodeVideo c sched).seenErr.length ≤ 2 ∧
      (transcodeVideo c sched).seenTimes = [] ∧
      ∃ l j e, (transcodeVideo c sched).seenErr = l ++ [j] ∧ (∀ k ∈ l, c.ok k) ∧
        (c.run j).err = some e ∧ r.err = some (errText j e)) := by
  have hI := inv_transcodeVideo c sched
  rcases returned_cases c _ hI r hr with
    ⟨-, -, p1, p2, t, rfl⟩ | ⟨l, j, e, hl, hok, hje, rfl, hst⟩
  · exact ⟨fun _ => ⟨p1, p2⟩, fun hn => absurd rfl hn⟩
  · refine ⟨fun hs => by simp at hs, fun _ => ⟨?_, ?_, seenErr_length_le c _ hI, hst,
      l, j, e, hl, hok, hje, rfl⟩⟩
    · rw [List.nodup_iff_count_le_one]
      intro a
      have := hI.errTok a
      omega
    · rw [hl]; simp

/-- C5 witness: the DASH success is received first, then the HLS failure. -/
theorem C5_outcomes_consumed_witness :
    (transcodeVideo demoCall
        [.job .dash, .job .dash, .job .dash, .job .hls, .job .hls, .main, .main]).main =
      .returned ⟨none, none, some "HLS transcoding error: exit status 1"⟩ ∧
    (transcodeVideo demoCall
        [.job .dash, .job .dash, .job .dash, .job .hls, .job .hls, .main, .main]).seenErr.Nodup ∧
    (transcodeVideo demoCall
        [.job .dash, .job .dash, .job .dash, .job .hls, .job .hls, .main, .main]).seenErr.length
      ≤ 2 ∧
    (transcodeVideo demoCall
        [.job .dash, .job .dash, .job .dash, .job .hls, .job .hls, .main, .main]).seenTimes = [] :=
  ⟨by decide,
   ((C5_outcomes_consumed demoCall
      [.job .dash, .job .dash, .job .dash, .job .hls, .job .hls, .main, .main]
      ⟨none, none, some "HLS transcoding error: exit status 1"⟩ (by decide)).2 (by decide)).1,
   ((C5_outcomes_consumed demoCall
      [.job .dash, .job .dash, .job .dash, .job .hls, .job .hls, .main, .main]
      ⟨none, none, some "HLS transcoding error: exit status 1"⟩ (by decide)).2
      (by decide)).2.2.1,
   ((C5_outcomes_consumed demoCall
      [.job .dash, .job .dash, .job .dash, .job .hls, .job .hls, .main, .main]
      ⟨none, none, some "HLS transcoding error: exit status 1"⟩ (by decide)).2
      (by decide)).2.2.2.1⟩

/-! ## `transcodeVideo`: the commands run and the URLs returned -/

theorem spawned_perm (c : Call) (s : State) (h : Inv c s)
    (hh : s.pc .hls = .done) (hd : s.pc .dash = .done) :
    s.spawned.Perm [(.hls, "ffmpeg" :: c.hlsArgs), (.dash, "ffmpeg" :: c.dashArgs)] := by
  have c1 := h.spawnTok .hls
  have c2 := h.spawnTok .dash
  simp only [hh, hd] at c1 c2
  simp at c1 c2
  have hlen : s.spawned.length = 2 := by
    have := length_eq_count_jobs (s.spawned.map Prod.fst)
    simp at this
    omega
  obtain ⟨x, y, hxy⟩ := List.length_eq_two.1 hlen
  have hx := h.spawnArgs x (by simp [hxy])
  have hy := h.spawnArgs y (by simp [hxy])
  obtain ⟨x1, x2⟩ := x
  obtain ⟨y1, y2⟩ := y
  simp only at hx hy
  subst hx hy
  rw [hxy] at c1 c2 ⊢
  cases x1 <;> cases y1 <;> simp [List.count_cons] at c1 c2
  · exact List.Perm.refl _
  · exact List.Perm.swap _ _ _

/-- C6 (as written, refuted): with the default storage root `./videos` the
paths passed to the encoder are `videos/hls/v/...` and `videos/dash/v/...`, not
the text `./videos/hls/v/...`; with an empty storage root they are relative
(`dash/v/manifest.mpd`), not `/dash/v/manifest.mpd`. -/
theorem C6_counterexample :
    demoCall.hlsArgs ≠ specHlsArgs demoCall ∧
    demoCall.dashArgs ≠ specDashArgs demoCall ∧
    demoCall.hlsArgs.getLast? = some "videos/hls/v/playlist.m3u8" ∧
    (specHlsArgs demoCall).getLast? = some "./videos/hls/v/playlist.m3u8" ∧
    ({ demoCall with storagePath := "" } : Call).dashArgs.getLast? = some "dash/v/manifest.mpd" ∧
    (specDashArgs { demoCall with storagePath := "" }).getLast? = some "/dash/v/manifest.mpd" := by
  decide

/-- C6 (amended): the argument vector of the HLS command is exactly
input flags, `-i`, input path, output flags, then the HLS trailing flags, and
the one of the DASH command likewise with the DASH trailing flags, where the
flags are `splitFFmpegParams` of the configured profile (`HW_ACCEL`, default
`macos`) and the codec, and where every path is built with `filepath.Join`
(joined with `/` and lexically cleaned) from the storage root, `hls` or `dash`,
the request ID and the file name; the output path is the last element; in a
complete execution exactly these two commands are run. -/
theorem C6_argument_vectors (c : Call) (sched : List Tid) :
    c.hlsArgs =
      (splitFFmpegParams (getEnv c.env "HW_ACCEL" "macos") c.codec).1 ++ ["-i", c.inputPath] ++
      (splitFFmpegParams (getEnv c.env "HW_ACCEL" "macos") c.codec).2 ++
      ["-hls_time", "4", "-hls_playlist_type", "vod", "-hls_segment_filename",
       filepath.Join [filepath.Join [c.storagePath, "hls", c.videoID], "segment_%03d.ts"],
       filepath.Join [filepath.Join [c.storagePath, "hls", c.videoID], "playlist.m3u8"]] ∧
    c.dashArgs =
      (splitFFmpegParams (getEnv c.env "HW_ACCEL" "macos") c.codec).1 ++ ["-i", c.inputPath] ++
      (splitFFmpegParams (getEnv c.env "HW_ACCEL" "macos") c.codec).2 ++
      ["-f", "dash", "-use_timeline", "1", "-use_template", "1", "-seg_duration", "4",
       "-adaptation_sets", "id=0,streams=v id=1,streams=a",
       filepath.Join [filepath.Join [c.storagePath, "dash", c.videoID], "manifest.mpd"]] ∧
    c.hlsArgs.getLast? =
      some (filepath.Join [filepath.Join [c.storagePath, "hls", c.videoID], "playlist.m3u8"]) ∧
    c.dashArgs.getLast? =
      some (filepath.Join [filepath.Join [c.storagePath, "dash", c.videoID], "manifest.mpd"]) ∧
    (transcodeVideo c (sched ++ drain)).spawned.Perm
      [(.hls, "ffmpeg" :: c.hlsArgs), (.dash, "ffmpeg" :: c.dashArgs)] := by
  refine ⟨?_, ?_, ?_, ?_, ?_⟩
  · simp [Call.hlsArgs, Call.inputParams, Call.outputParams, Call.hlsPath]
  · simp [Call.dashArgs, Call.inputParams, Call.outputParams, Call.dashPath]
  · have e : c.hlsArgs = (c.inputParams ++ ["-i", c.inputPath] ++ c.outputParams ++
        ["-hls_time", "4", "-hls_playlist_type", "vod", "-hls_segment_filename",
         filepath.Join [c.hlsPath, "segment_%03d.ts"]]) ++
        [filepath.Join [c.hlsPath, "playlist.m3u8"]] := by simp [Call.hlsArgs]
    rw [e, List.getLast?_concat]
    rfl
  · have e : c.dashArgs = (c.inputParams ++ ["-i", c.inputPath] ++ c.outputParams ++
        ["-f", "dash", "-use_timeline", "1", "-use_template", "1", "-seg_duration", "4",
         "-adaptation_sets", "id=0,streams=v id=1,streams=a"]) ++
        [filepath.Join [c.dashPath, "manifest.mpd"]] := by simp [Call.dashArgs]
    rw [e, List.getLast?_concat]
    rfl
  · have hI := inv_transcodeVideo c sched
    have hD := returns_after_drain c _ hI
    have hI2 := inv_transcodeVideo c (sched ++ drain)
    unfold transcodeVideo at hD hI2 ⊢
    rw [exec_append]
    rw [exec_append] at hI2
    exact spawned_perm c _ hI2 hD.1 hD.2.1

/-- C7: when both encoders succeed, every complete execution returns the URL
map whose `hls` entry is `http://localhost:3000/hls/R/playlist.m3u8` and whose
`dash` entry is `http://localhost:3000/dash/R/manifest.mpd`, with a nil error;
no other result is ever returned; the map is the same for every other call
with the same request ID, whatever its storage root, input path, codec,
environment and schedule. -/
theorem C7_urls (c : Call) (sched : List Tid) (hh : c.ok .hls) (hd : c.ok .dash) :
    base_url = "http://localhost:3000" ∧
    (∃ t, (transcodeVideo c (sched ++ drain)).main = .returned
      ⟨some [("hls", base_url ++ "/hls/" ++ c.videoID ++ "/playlist.m3u8"),
             ("dash", base_url ++ "/dash/" ++ c.videoID ++ "/manifest.mpd")], some t, none⟩) ∧
    (∀ r, (transcodeVideo c sched).main = .returned r →
      r.err = none ∧
      ∃ m, r.urls = some m ∧
        goIndex m "hls" "" = base_url ++ "/hls/" ++ c.videoID ++ "/playlist.m3u8" ∧
        goIndex m "dash" "" = base_url ++ "/dash/" ++ c.videoID ++ "/manifest.mpd") ∧
    (∀ (c2 : Call) (sched2 : List Tid) (r r2 : Ret), c2.videoID = c.videoID →
      c2.ok .hls → c2.ok .dash →
      (transcodeVideo c sched).main = .returned r →
      (transcodeVideo c2 sched2).main = .returned r2 → r2.urls = r.urls) := by
  have key : ∀ (c : Call) (sched : List Tid), c.ok .hls → c.ok .dash →
      ∀ r, (transcodeVideo c sched).main = .returned r →
        ∃ t, r = ⟨some (urlMap c.videoID), some t, none⟩ := by
    intro c sched hh hd r hr
    rcases returned_cases c _ (inv_transcodeVideo c sched) r hr with
      ⟨-, -, -, -, t, ht⟩ | ⟨l, j, e, -, -, hje, -, -⟩
    · exact ⟨t, ht⟩
    · exfalso
      cases j
      · have : (c.run .hls).err = none := hh
        rw [this] at hje; cases hje
      · have : (c.run .dash).err = none := hd
        rw [this] at hje; cases hje
  refine ⟨rfl, ?_, ?_, ?_⟩
  · have hI := inv_transcodeVideo c sched
    obtain ⟨r, hr⟩ := (returns_after_drain c _ hI).2.2
    have hr2 : (transcodeVideo c (sched ++ drain)).main = .returned r := by
      unfold transcodeVideo at hr ⊢
      rw [exec_append]; exact hr
    obtain ⟨t, ht⟩ := key c (sched ++ drain) hh hd r hr2
    exact ⟨t, by rw [hr2, ht]; rfl⟩
  · intro r hr
    obtain ⟨t, rfl⟩ := key c sched hh hd r hr
    refine ⟨rfl, urlMap c.videoID, rfl, ?_, ?_⟩
    · simp [urlMap, goIndex, List.lookup]
    · have : ("dash" == "hls") = false := by decide
      simp [urlMap, goIndex, List.lookup, this]
  · intro c2 sched2 r r2 hid h2 d2 hr hr2
    obtain ⟨t, rfl⟩ := key c sched hh hd r hr
    obtain ⟨t2, rfl⟩ := key c2 sched2 h2 d2 r2 hr2
    simp [hid]

/-- C7 witness: the default call with both encoders succeeding. -/
theorem C7_urls_witness :
    demoCallOk.ok .hls ∧ demoCallOk.ok .dash ∧
    ∃ t, (transcodeVideo demoCallOk ([] ++ drain)).main = .returned
      ⟨some [("hls", base_url ++ "/hls/" ++ demoCallOk.videoID ++ "/playlist.m3u8"),
             ("dash", base_url ++ "/dash/" ++ demoCallOk.videoID ++ "/manifest.mpd")],
       some t, none⟩ :=
  ⟨by decide, by decide, (C7_urls demoCallOk [] (by decide) (by decide)).2.1⟩

end StreamingService
